import Mathlib

/-!
Verification development for `migrate2gitlfs.py` (pausan/migrate2gitlfs).

The program is shallowly embedded below.  Strings and file contents are
modelled as `List Char` (the byte/character distinction is irrelevant for the
operations involved: `str.encode` is injective and every operation acts
uniformly on the underlying sequence), file sizes as `Nat`, timestamps as
`Nat`, timezone offsets as `Int`, and the filesystem as an association list
from absolute paths to file contents.  Python dictionaries are association
lists (preserving insertion order), Python sets are duplicate-free lists.
External collaborators (git, `fnmatch`, `os.path`, `shutil`) are modelled
from their documented behaviour; everything else is translated directly from
the source of `migrate2gitlfs.py`.
-/

/-- Characters of a string literal (used to write `List Char` constants). -/
def chars (s : String) : List Char := s.data

/-- Code-point lexicographic comparison of strings, the order Python uses
when sorting a list of `str`. -/
def lexLe : List Char → List Char → Bool
  | [], _ => true
  | _ :: _, [] => false
  | a :: as, b :: bs =>
    if a.toNat < b.toNat then true
    else if b.toNat < a.toNat then false
    else lexLe as bs

/-- Insert into a sorted list, after any element that is `≤` the new one,
so that the resulting sort is stable like Python `sorted`. -/
def insertLe {α : Type} (le : α → α → Bool) (x : α) : List α → List α
  | [] => [x]
  | y :: ys => if le y x && !(le x y) then y :: insertLe le x ys else x :: y :: ys

/-- Stable insertion sort: the model of Python `sorted`. -/
def isort {α : Type} (le : α → α → Bool) : List α → List α
  | [] => []
  | x :: xs => insertLe le x (isort le xs)

/-- Python `needle in hay` on strings: contiguous-substring test. -/
def isSubstr (needle : List Char) : List Char → Bool
  | [] => needle.isPrefixOf []
  | c :: t => needle.isPrefixOf (c :: t) || isSubstr needle t

/-- Auxiliary scanner for `pyReplace`, structurally recursive on fuel.
One unit of fuel is spent per character position examined, and each step
consumes at least one character of the scanned string, so fuel equal to the
string length is always sufficient. -/
def pyReplaceFuel (search repl : List Char) : Nat → List Char → List Char
  | 0, s => s
  | fuel + 1, s =>
    match s with
    | [] => []
    | c :: cs =>
      if search.isPrefixOf (c :: cs) then
        repl ++ pyReplaceFuel search repl fuel ((c :: cs).drop search.length)
      else
        c :: pyReplaceFuel search repl fuel cs

/-- Python `s.replace(search, repl)` (also `bytes.replace`): replace all
non-overlapping occurrences left to right.  For an empty `search` CPython
inserts `repl` before every character and once at the end; that case is
modelled explicitly. -/
def pyReplace (s search repl : List Char) : List Char :=
  if search.isEmpty then repl ++ (s.map (fun c => c :: repl)).flatten
  else pyReplaceFuel search repl s.length s

/-- `migrate2gitlfs.multireplace`: sequentially apply every
(search, replacement) pair of the table, in table order, each rule acting on
the result of the previous one.  An empty table returns the input unchanged,
exactly as the early-out in the source does. -/
def multireplace (what : List Char) (table : List (List Char × List Char)) : List Char :=
  table.foldl (fun acc sr => pyReplace acc sr.1 sr.2) what

/-- `os.path.join` for the POSIX flavour used by the tool: an absolute second
component wins, otherwise the components are joined with a single slash. -/
def joinPath (a b : List Char) : List Char :=
  match b with
  | '/' :: _ => b
  | _ =>
    match a with
    | [] => b
    | _ => if a.getLast? = some '/' then a ++ b else a ++ '/' :: b

/-- Python `s.split(sep)` for a single-character separator: always returns at
least one (possibly empty) piece. -/
def splitOnChar (sep : Char) : List Char → List (List Char)
  | [] => [[]]
  | c :: cs =>
    if c = sep then [] :: splitOnChar sep cs
    else
      match splitOnChar sep cs with
      | [] => [[c]]
      | l :: ls => (c :: l) :: ls

/-- Python `sep.join(pieces)` for a single-character separator. -/
def joinWith (sep : Char) : List (List Char) → List Char
  | [] => []
  | [l] => l
  | l :: ls => l ++ sep :: joinWith sep ls

/-- Character-class member test for the glob matcher: `a-b` ranges by code
point, a trailing `-` is a literal, as in `fnmatch.translate`. -/
def classMatch : List Char → Char → Bool
  | a :: '-' :: b :: rest, c =>
    (a.toNat ≤ c.toNat && c.toNat ≤ b.toNat) || classMatch rest c
  | a :: rest, c => (a = c) || classMatch rest c
  | [], _ => false

/-- Scan up to the closing `]` of a character class, returning the class
body and the remaining pattern; `none` when the class is unterminated. -/
def scanClass (acc : List Char) : List Char → Option (List Char × List Char)
  | [] => none
  | c :: cs => if c = ']' then some (acc, cs) else scanClass (acc ++ [c]) cs

/-- Parse a character class directly after `[`: an optional leading `!`
negates, a `]` in first position is a literal member, an unterminated class
makes the `[` itself a literal (all per `fnmatch.translate`). -/
def parseClass (ps : List Char) : Option (Bool × List Char × List Char) :=
  match ps with
  | '!' :: rest =>
    (match rest with
     | ']' :: rest2 => (scanClass [']'] rest2).map (fun pr => (true, pr.1, pr.2))
     | _ => (scanClass [] rest).map (fun pr => (true, pr.1, pr.2)))
  | ']' :: rest => (scanClass [']'] rest).map (fun pr => (false, pr.1, pr.2))
  | _ => (scanClass [] ps).map (fun pr => (false, pr.1, pr.2))

/-- Fueled glob matcher: `*` matches any sequence, `?` any one character,
`[...]` a character class.  Every recursive call strictly decreases
`pattern.length + string.length`, so fuel above that sum never runs out. -/
def globMatchFuel : Nat → List Char → List Char → Bool
  | 0, _, _ => false
  | fuel + 1, p, s =>
    match p with
    | [] => s.isEmpty
    | '*' :: ps =>
      globMatchFuel fuel ps s ||
        (match s with
         | [] => false
         | _ :: cs => globMatchFuel fuel ('*' :: ps) cs)
    | '?' :: ps =>
      (match s with
       | [] => false
       | _ :: cs => globMatchFuel fuel ps cs)
    | '[' :: ps =>
      (match parseClass ps with
       | none =>
         (match s with
          | '[' :: cs => globMatchFuel fuel ps cs
          | _ => false)
       | some (neg, body, rest) =>
         (match s with
          | [] => false
          | c :: cs => (classMatch body c != neg) && globMatchFuel fuel rest cs))
    | pc :: ps =>
      (match s with
       | [] => false
       | c :: cs => (pc = c) && globMatchFuel fuel ps cs)

/-- Model of `fnmatch.fnmatch(name, pat)` on a POSIX system, where
`os.path.normcase` is the identity, so matching is case-sensitive and tests
the entire name against the entire pattern. -/
def fnmatch (name pat : List Char) : Bool :=
  globMatchFuel (pat.length + name.length + 1) pat name

/-- The 1 MiB size threshold `lfs_size_threshold` of `looksBinary`. -/
def lfsSizeThreshold : Nat := 1024 * 1024

/-- `migrate2gitlfs.looksBinary(lfs_patterns, file_name, file_size,
read_stream)`: filter-managed when the name matches a configured pattern,
else when the size reaches 1 MiB, else when the first 1024 bytes of the
content (here: the whole content, of which the Python code reads the first
1024 bytes) contain a NUL, else not.  `content` lists the file's bytes. -/
def looksBinary (lfs_patterns : List (List Char)) (file_name : List Char)
    (file_size : Nat) (content : List Nat) : Bool :=
  if 0 < (lfs_patterns.filter (fun p => fnmatch file_name p)).length then true
  else if lfsSizeThreshold ≤ file_size then true
  else if 1 ≤ (content.take 1024).count 0 then true
  else false

/-- The credential-like extensions scanned by `detectSensitiveFiles`. -/
def sensitiveExtensions : List (List Char) :=
  [chars (".cer"), chars (".key"), chars (".p12"), chars (".crt"), chars (".pem")]

/-- The warning emitted for a root-level `.gitattributes` (the source text,
with its original spelling, minus quote punctuation). -/
def gaWarning : List Char :=
  chars (".gitattributes found in history. File will be ignored! Make sure your .gitattributes contais everything needed!")

/-- The credential-extension warning text. -/
def sensitiveWarning (file_name : List Char) : List Char :=
  chars ("File can contain sensitive info: ") ++ file_name

/-- The three characters starting at the first `%` of the name: Python
`file_name[index:index+3]` with `index = file_name.index(chr(37))`. -/
def percentSnippet (file_name : List Char) : List Char :=
  (file_name.drop (file_name.findIdx (fun c => c = '%'))).take 3

/-- The `%`-in-filename warning text, which surfaces `percentSnippet`
(quote punctuation of the original message dropped). -/
def percentWarning (file_name : List Char) : List Char :=
  chars ("At least a file contains % symbol: ") ++ percentSnippet file_name ++
    chars (" (see history_rename_files config if you would like to rename them)")

/-- `migrate2gitlfs.detectSensitiveFiles(file_name)`: warn on a name equal to
`.gitattributes`, on each credential-like extension suffix, and on a literal
`%` anywhere in the name. -/
def detectSensitiveFiles (file_name : List Char) : List (List Char) :=
  (if file_name = chars (".gitattributes") then [gaWarning] else []) ++
    (sensitiveExtensions.filter (fun e => e.isSuffixOf file_name)).map
      (fun _ => sensitiveWarning file_name) ++
    (if file_name.any (fun c => c = '%') then [percentWarning file_name] else [])

/-- `migrate2gitlfs.gitAttributesMergeDumb(contents1, contents2, separator)`:
keep the lines of `contents2` that do not occur inside `contents1` (Python
`line in contents1`, a substring test); if none remain, return `contents1`
unchanged, otherwise append them sorted under the separator line. -/
def gitAttributesMergeDumb (contents1 contents2 separator : List Char) : List Char :=
  let new_lines := (splitOnChar '\n' contents2).filter (fun line => !(isSubstr line contents1))
  if new_lines.isEmpty then contents1
  else contents1 ++ '\n' :: separator ++ '\n' :: (joinWith '\n' (isort lexLe new_lines) ++ ['\n'])

/-- Writing `data` into an existing file at offset `pos` without truncating:
the bytes beyond the written range survive.  This is the effect of
`f.seek(pos)` followed by `f.write(data)` on a file opened `r+b`. -/
def fileWrite {α : Type} (orig : List α) (pos : Nat) (data : List α) : List α :=
  orig.take pos ++ data ++ orig.drop (pos + data.length)

/-- `migrate2gitlfs.fileInplaceSearchAndReplace`: read the whole file,
replace every occurrence, seek to offset 0 and write the result back —
without truncation, so old trailing bytes survive a shrinking replacement.
The function returns the resulting file content. -/
def fileInplaceSearchAndReplace (content search_text replace_text : List Char) : List Char :=
  fileWrite content 0 (pyReplace content search_text replace_text)

/-- Apply a file's `history_replace_file_contents` rules in table order,
re-reading the file between rules, as the `for search, replace in ...` loops
of `replayCommits` do. -/
def applyReplaceRules (content : List Char) (rules : List (List Char × List Char)) : List Char :=
  rules.foldl (fun c sr => fileInplaceSearchAndReplace c sr.1 sr.2) content

/-- A `{name, email}` identity, as stored in the `authors` mapping. -/
structure Identity where
  name : List Char
  email : List Char
deriving DecidableEq

/-- The mapping key `f"{name} <{email}>"`. -/
def identityKey (who : Identity) : List Char :=
  who.name ++ chars (" <") ++ who.email ++ chars (">")

/-- Association-list lookup: the model of Python `dict.get(k, None)`. -/
def alookup {α : Type} : List (List Char × α) → List Char → Option α
  | [], _ => none
  | kv :: rest, k => if kv.1 = k then some kv.2 else alookup rest k

/-- Association-list update: the model of Python `dict[k] = v` (insertion
order of first occurrence preserved, later assignments overwrite). -/
def aset {α : Type} : List (List Char × α) → List Char → α → List (List Char × α)
  | [], k, v => [(k, v)]
  | kv :: rest, k, v => if kv.1 = k then (k, v) :: rest else kv :: aset rest k v

/-- `collections.Counter` increment: `counter[k] += v`. -/
def counterAdd (m : List (List Char × Nat)) (k : List Char) (v : Nat) :
    List (List Char × Nat) :=
  aset m k ((alookup m k).getD 0 + v)

/-- Python `set.add` on a duplicate-free list model. -/
def setInsert (l : List (List Char)) (x : List Char) : List (List Char) :=
  if x ∈ l then l else l ++ [x]

/-- Python `set.update` with an iterable of strings. -/
def setUnion (l : List (List Char)) (xs : List (List Char)) : List (List Char) :=
  xs.foldl setInsert l

/-- `authors_mapping.get(key, {'name': fallback}).get('name')` when every
mapping value is a full `{name, email}` identity. -/
def resolveName (m : List (List Char × Identity)) (key fallback : List Char) : List Char :=
  match alookup m key with
  | some who => who.name
  | none => fallback

/-- `authors_mapping.get(key, {'email': fallback}).get('email')` when every
mapping value is a full `{name, email}` identity. -/
def resolveEmail (m : List (List Char × Identity)) (key fallback : List Char) : List Char :=
  match alookup m key with
  | some who => who.email
  | none => fallback

/-- One blob of a commit's tree as the analyzer sees it: full relative path,
size in bytes, and content bytes (`blob.data_stream`). -/
structure AnalyzerBlob where
  path : List Char
  size : Nat
  content : List Nat
deriving DecidableEq

/-- One entry of `previous_commit.diff(commit)` as the analyzer uses it:
the git change type (a letter string) and the post-image path/size/content. -/
structure AnalyzerDiffEntry where
  change_type : List Char
  b_path : List Char
  b_size : Nat
  b_content : List Nat
deriving DecidableEq

/-- One commit of the analyzed branch, oldest first.  `tree` is the full
tree listing (used for the first commit only) and `diff` the diff against
the predecessor (used for every later commit), both supplied by git. -/
structure AnalyzerCommit where
  author : Identity
  committer : Identity
  tree : List AnalyzerBlob
  diff : List AnalyzerDiffEntry
deriving DecidableEq

/-- The accumulating state of `analyzeGitRepository`'s commit loop. -/
structure AnalyzerState where
  warnings : List (List Char)
  authors_mapping : List (List Char × Identity)
  lfs_file_commit_count : List (List Char × Nat)
  lfs_aggregated_file_size : List (List Char × Nat)
  lfs_files : List (List Char)
deriving DecidableEq

/-- Per-blob body of the first-commit loop of `analyzeGitRepository`:
classify, and on a positive answer grow the size/touch counters and the
`lfs_files` set; scan every blob path for sensitive content. -/
def analyzeBlobStep (pats : List (List Char)) (s : AnalyzerState) (blob : AnalyzerBlob) :
    AnalyzerState :=
  let s1 :=
    if looksBinary pats blob.path blob.size blob.content then
      { s with
        lfs_aggregated_file_size := counterAdd s.lfs_aggregated_file_size blob.path blob.size
        lfs_file_commit_count := counterAdd s.lfs_file_commit_count blob.path 1
        lfs_files := setInsert s.lfs_files blob.path }
    else s
  { s1 with warnings := setUnion s1.warnings (detectSensitiveFiles blob.path) }

/-- Per-entry body of the subsequent-commit loop of `analyzeGitRepository`:
only `Added`/`Modified` entries are touched; a path already in `lfs_files`
stays classified without looking at the new content. -/
def analyzeDiffStep (pats : List (List Char)) (s : AnalyzerState) (e : AnalyzerDiffEntry) :
    AnalyzerState :=
  if e.change_type = chars ("A") ∨ e.change_type = chars ("M") then
    let s1 :=
      if e.b_path ∈ s.lfs_files ∨
          looksBinary pats e.b_path e.b_size e.b_content = true then
        { s with
          lfs_file_commit_count := counterAdd s.lfs_file_commit_count e.b_path 1
          lfs_aggregated_file_size := counterAdd s.lfs_aggregated_file_size e.b_path e.b_size
          lfs_files := setInsert s.lfs_files e.b_path }
      else s
    { s1 with warnings := setUnion s1.warnings (detectSensitiveFiles e.b_path) }
  else s

/-- One iteration of the commit loop of `analyzeGitRepository`: record the
author and committer identities (defaulted to themselves), then walk either
the full tree (first commit) or the diff (every later commit). -/
def analyzeCommitStep (pats : List (List Char)) (isFirst : Bool) (c : AnalyzerCommit)
    (s : AnalyzerState) : AnalyzerState :=
  let s1 := { s with
    authors_mapping :=
      aset (aset s.authors_mapping (identityKey c.author) c.author)
        (identityKey c.committer) c.committer }
  if isFirst then c.tree.foldl (analyzeBlobStep pats) s1
  else c.diff.foldl (analyzeDiffStep pats) s1

/-- The commit loop of `analyzeGitRepository`; the flag tracks
`previous_commit is None`. -/
def analyzeGo (pats : List (List Char)) :
    AnalyzerState → Bool → List AnalyzerCommit → AnalyzerState
  | s, _, [] => s
  | s, isFirst, c :: cs => analyzeGo pats (analyzeCommitStep pats isFirst c s) false cs

/-- The initial accumulators of `analyzeGitRepository`. -/
def analyzeInit : AnalyzerState :=
  { warnings := [], authors_mapping := [], lfs_file_commit_count := []
    lfs_aggregated_file_size := [], lfs_files := [] }

/-- `migrate2gitlfs.analyzeGitRepository`, restricted to its commit loop:
the embedding returns the loop's final accumulators (the subsequent
assembly of the report dictionary adds no further classification). -/
def analyzeGitRepository (pats : List (List Char)) (commits : List AnalyzerCommit) :
    AnalyzerState :=
  analyzeGo pats analyzeInit true commits

/-- The filesystem: an association list from absolute file path to content.
Directories exist implicitly (as path prefixes); `os.removedirs` pruning of
empty directories is therefore invisible in this model and embeds to a
no-op. -/
abbrev FS := List (List Char × List Char)

/-- Content of the file at `p`, if it exists. -/
def fsGet (fs : FS) (p : List Char) : Option (List Char) := alookup fs p

/-- Create or overwrite the file at `p`. -/
def fsSet (fs : FS) (p v : List Char) : FS := aset fs p v

/-- `os.unlink p` (on an existing file). -/
def fsDel (fs : FS) (p : List Char) : FS := fs.filter (fun kv => kv.1 ≠ p)

/-- `os.path.isfile p` / `os.path.exists p` for this file-map model. -/
def fsIsFile (fs : FS) (p : List Char) : Bool := (fsGet fs p).isSome

/-- All file paths strictly below directory `root`. -/
def fsFilesUnder (fs : FS) (root : List Char) : List (List Char) :=
  (fs.filter (fun kv => (root ++ ['/']).isPrefixOf kv.1)).map (fun kv => kv.1)

/-- Path of a file relative to `root` (assuming it lies under `root`). -/
def relUnder (root p : List Char) : List Char := p.drop (root.length + 1)

/-- The tree rooted at `root`: relative path and content of every file under
it.  This is what `git add .` followed by `git commit` snapshots. -/
def treeOf (fs : FS) (root : List Char) : FS :=
  (fs.filter (fun kv => (root ++ ['/']).isPrefixOf kv.1)).map
    (fun kv => (relUnder root kv.1, kv.2))

/-- Remove every file under `root`. -/
def fsClearUnder (fs : FS) (root : List Char) : FS :=
  fs.filter (fun kv => !((root ++ ['/']).isPrefixOf kv.1))

/-- `git checkout <commit>` in the clone: the working tree under `root`
becomes exactly the commit's tree (the clone never holds untracked files). -/
def checkoutInto (fs : FS) (root : List Char) (tree : FS) : FS :=
  fsClearUnder fs root ++ tree.map (fun kv => (joinPath root kv.1, kv.2))

/-- `os.renames old new`: move the file at `old` — or the whole subtree when
`old` is a directory — to `new`, overwriting an existing file at `new`
(missing parents are created, emptied parents pruned: both invisible
here). -/
def fsRenames (fs : FS) (old new : List Char) : FS :=
  (fs.filter (fun kv => kv.1 ≠ new)).map (fun kv =>
    if kv.1 = old then (new, kv.2)
    else if (old ++ ['/']).isPrefixOf kv.1 then (new ++ kv.1.drop old.length, kv.2)
    else kv)

/-- The directories that `os.walk root` visits below `root`: every proper
ancestor directory of a file under `root`. -/
def properDirs (root rel : List Char) : List (List Char) :=
  let comps := splitOnChar '/' rel
  (List.range (comps.length - 1)).map
    (fun k => root ++ '/' :: joinWith '/' (comps.take (k + 1)))

/-- All directories under `root`, each listed once. -/
def fsDirsUnder (fs : FS) (root : List Char) : List (List Char) :=
  (fsFilesUnder fs root).foldl (fun acc p => setUnion acc (properDirs root (relUnder root p))) []

/-- The directory pass of the rename walk in `replayCommits`' first-commit
branch: for every directory of the target tree (walk entries taken as a
sorted snapshot — the OS yields them in unspecified order), apply
`multireplace` to its ABSOLUTE path (`os.path.join(root, name)` with `root`
from `os.walk(target_repo_path)`) and `os.renames` when it changed. -/
def renameWalkDirs (fs : FS) (root : List Char) (table : List (List Char × List Char)) : FS :=
  (isort lexLe (fsDirsUnder fs root)).foldl
    (fun fs1 d =>
      let nd := multireplace d table
      if nd ≠ d then fsRenames fs1 d nd else fs1) fs

/-- The file pass of the same rename walk, again over ABSOLUTE paths. -/
def renameWalkFiles (fs : FS) (root : List Char) (table : List (List Char × List Char)) : FS :=
  (isort lexLe (fsFilesUnder fs root)).foldl
    (fun fs1 p =>
      let np := multireplace p table
      if np ≠ p then fsRenames fs1 p np else fs1) fs

/-- `shutil.ignore_patterns(".git", ".git/**", ".gitattributes")` applied by
`copytree`: the patterns are matched against entry names in every visited
directory, so any path component named `.git` or `.gitattributes` excludes
the entry at any depth. -/
def copytreeIgnored (relPath : List Char) : Bool :=
  (splitOnChar '/' relPath).any
    (fun c => c = chars (".git") || c = chars (".gitattributes"))

/-- The inputs `replayCommits` receives from `main`: repository locations,
the process working directory (never changed by the tool), the compiled
`.gitattributes` text, and the configuration tables. -/
structure ReplayConfig where
  cloned_repo_path : List Char
  target_repo_path : List Char
  cwd : List Char
  git_attributes_contents : List Char
  authors_mapping : List (List Char × Identity)
  files_to_rename : List (List Char × List Char)
  files_to_delete : List (List Char)
  files_to_replace : List (List Char × List (List Char × List Char))
deriving DecidableEq

/-- The first-commit branch of `replayCommits`' loop: `shutil.copytree` of
the checked-out clone into the target, then the delete loop, the
content-replace loop — both addressing their configured relative paths
against the process working directory (`os.path.isfile(file)` with no join
against the target), — and finally, when the rename table is non-empty, the
directory and file rename walks over the target tree. -/
def rootCommitStep (cfg : ReplayConfig) (fs : FS) (tree : FS) : FS :=
  let fs1 := tree.foldl
    (fun acc kv =>
      if copytreeIgnored kv.1 then acc
      else fsSet acc (joinPath cfg.target_repo_path kv.1) kv.2) fs
  let fs2 := cfg.files_to_delete.foldl
    (fun acc p =>
      let ap := joinPath cfg.cwd p
      if fsIsFile acc ap then fsDel acc ap else acc) fs1
  let fs3 := cfg.files_to_replace.foldl
    (fun acc pr =>
      let ap := joinPath cfg.cwd pr.1
      match fsGet acc ap with
      | some content => fsSet acc ap (applyReplaceRules content pr.2)
      | none => acc) fs2
  if cfg.files_to_rename.isEmpty then fs3
  else renameWalkFiles (renameWalkDirs fs3 cfg.target_repo_path cfg.files_to_rename)
    cfg.target_repo_path cfg.files_to_rename

/-- The failures the diff branch of `replayCommits` can raise: the explicit
`raise Exception` of the unmatched change type, a `FileNotFoundError` from
`shutil.copy2`/`os.unlink`/`os.renames` on a missing path, and the
`AttributeError` from the misspelt `os.path.exsits` on the Renamed
branch. -/
inductive ReplayError where
  | unmodeledChangeType (change_type : List Char)
  | fileNotFound (path : List Char)
  | attributeExsits
deriving DecidableEq

/-- One entry of `previous_commit.diff(commit)` as the replay engine uses
it: change type letter, pre-image path, and (for renames) post-image path. -/
structure ReplayDiffEntry where
  change_type : List Char
  a_path : List Char
  b_path : List Char
deriving DecidableEq

/-- The per-entry body of the subsequent-commit branch of `replayCommits`:
skip any entry touching `.gitattributes`; copy on Added/Modified/
TypeChanged with delete-set and content-replace post-passes; delete on
Deleted unless the path is in the delete set; move on Renamed unless the
pre-image is in the delete set (the post-image delete-set check crashes on
the misspelt `os.path.exsits`); raise on any other change type. -/
def applyDiffEntry (cfg : ReplayConfig) (fs : FS) (e : ReplayDiffEntry) :
    Except ReplayError FS :=
  if e.a_path = chars (".gitattributes") then .ok fs
  else if e.change_type = chars ("A") ∨ e.change_type = chars ("M") ∨
      e.change_type = chars ("T") then
    let target_rel := multireplace e.a_path cfg.files_to_rename
    let source_file := joinPath cfg.cloned_repo_path e.a_path
    let target_file := joinPath cfg.target_repo_path target_rel
    match fsGet fs source_file with
    | none => .error (.fileNotFound source_file)
    | some content =>
      let fs1 := fsSet fs target_file content
      let fs2 :=
        if e.a_path ∈ cfg.files_to_delete ∧ fsIsFile fs1 target_file = true then
          fsDel fs1 target_file
        else fs1
      let fs3 :=
        match alookup cfg.files_to_replace e.a_path with
        | some rules =>
          match fsGet fs2 target_file with
          | some c2 => fsSet fs2 target_file (applyReplaceRules c2 rules)
          | none => fs2
        | none => fs2
      .ok fs3
  else if e.change_type = chars ("D") then
    if e.a_path ∈ cfg.files_to_delete then .ok fs
    else
      let file_path := joinPath cfg.target_repo_path (multireplace e.a_path cfg.files_to_rename)
      match fsGet fs file_path with
      | none => .error (.fileNotFound file_path)
      | some _ => .ok (fsDel fs file_path)
  else if e.change_type = chars ("R") then
    if e.a_path ∈ cfg.files_to_delete then .ok fs
    else
      let source_rel := multireplace e.a_path cfg.files_to_rename
      let target_rel := multireplace e.b_path cfg.files_to_rename
      let source_file := joinPath cfg.target_repo_path source_rel
      let target_file := joinPath cfg.target_repo_path target_rel
      if fsIsFile fs source_file then
        let fs1 := fsRenames fs source_file target_file
        if e.b_path ∈ cfg.files_to_delete then .error .attributeExsits
        else .ok fs1
      else .error (.fileNotFound source_file)
  else .error (.unmodeledChangeType e.change_type)

/-- Fold `applyDiffEntry` over a commit's diff, aborting at the first
raised error exactly as the uncaught Python exception aborts the run. -/
def applyDiffList (cfg : ReplayConfig) (fs : FS) :
    List ReplayDiffEntry → Except ReplayError FS
  | [] => .ok fs
  | e :: es =>
    match applyDiffEntry cfg fs e with
    | .ok fs1 => applyDiffList cfg fs1 es
    | .error err => .error err

/-- Decimal digits of a natural number (fuel-based; `n + 1` units always
suffice since each step divides by ten). -/
def natDigits : Nat → Nat → List Char
  | 0, _ => []
  | f + 1, n =>
    if n < 10 then [Char.ofNat (48 + n)]
    else natDigits f (n / 10) ++ [Char.ofNat (48 + n % 10)]

/-- Python `f"{n}"` for a natural number. -/
def natToChars (n : Nat) : List Char := natDigits (n + 1) n

/-- Python `f"{i}"` for an integer: a leading minus for negatives. -/
def intToChars (i : Int) : List Char :=
  if i < 0 then '-' :: natToChars i.natAbs else natToChars i.natAbs

/-- The date environment strings `f"{date} {tz_offset}"` handed to git. -/
def fmtGitDate (d : Nat) (tz : Int) : List Char :=
  natToChars d ++ ' ' :: intToChars tz

/-- One commit of the source branch as the replay engine reads it: metadata,
the full tree (what `git checkout` materialises in the clone), and the diff
against the predecessor as yielded by git (empty and unused for the first
commit). -/
structure ReplayCommit where
  hexsha : List Char
  author : Identity
  committer : Identity
  authored_date : Nat
  committed_date : Nat
  author_tz_offset : Int
  committer_tz_offset : Int
  message : List Char
  tree : FS
  diff : List ReplayDiffEntry
deriving DecidableEq

/-- A commit created in the target repository: the identities and date
strings placed in git's environment, the original message passed to
`git commit -m`, and the staged tree (`git add .`). -/
structure ReplayedCommit where
  authorName : List Char
  authorEmail : List Char
  committerName : List Char
  committerEmail : List Char
  authorDate : List Char
  committerDate : List Char
  message : List Char
  tree : FS
deriving DecidableEq

/-- The commit-creation step of `replayCommits`: author/committer resolved
through the authors mapping (falling back to the original), dates formatted
with their original timezone offsets, original message, and the snapshot of
the target tree. -/
def mkReplayedCommit (cfg : ReplayConfig) (c : ReplayCommit) (fs : FS) : ReplayedCommit :=
  let author_key := identityKey c.author
  let committer_key := identityKey c.committer
  { authorName := resolveName cfg.authors_mapping author_key c.author.name
    authorEmail := resolveEmail cfg.authors_mapping author_key c.author.email
    committerName := resolveName cfg.authors_mapping committer_key c.committer.name
    committerEmail := resolveEmail cfg.authors_mapping committer_key c.committer.email
    authorDate := fmtGitDate c.authored_date c.author_tz_offset
    committerDate := fmtGitDate c.committed_date c.committer_tz_offset
    message := c.message
    tree := treeOf fs cfg.target_repo_path }

/-- The filesystem effect of one iteration of `replayCommits`' loop:
`git checkout` of the commit in the clone, then either the full-copy root
branch (first commit) or the diff application (later commits). -/
def replayStepFS (cfg : ReplayConfig) (fs : FS) (isFirst : Bool) (c : ReplayCommit) :
    Except ReplayError FS :=
  let fs1 := checkoutInto fs cfg.cloned_repo_path c.tree
  if isFirst then .ok (rootCommitStep cfg fs1 c.tree)
  else applyDiffList cfg fs1 c.diff

/-- The commit loop of `replayCommits`: check out each commit in the clone,
reconcile the target tree (full copy plus transforms for the first commit,
diff application afterwards), then create the commit.  A raised error aborts
the remaining commits, as the uncaught exception does in Python. -/
def replayGo (cfg : ReplayConfig) (fs : FS) (isFirst : Bool) (acc : List ReplayedCommit) :
    List ReplayCommit → Except ReplayError (List ReplayedCommit)
  | [] => .ok acc.reverse
  | c :: cs =>
    match replayStepFS cfg fs isFirst c with
    | .error err => .error err
    | .ok fs2 => replayGo cfg fs2 false (mkReplayedCommit cfg c fs2 :: acc) cs

/-- `migrate2gitlfs.replayCommits`, on an ambient filesystem `fs0`: first the
compiled attribute text is appended (mode `a+t`, preceded by a newline) to
`<target>/.gitattributes`, then every commit is replayed oldest first.  The
result lists the commits created in the target repository, in order. -/
def replayCommits (cfg : ReplayConfig) (fs0 : FS) (commits : List ReplayCommit) :
    Except ReplayError (List ReplayedCommit) :=
  let ga := joinPath cfg.target_repo_path (chars (".gitattributes"))
  let fs := fsSet fs0 ga (((fsGet fs0 ga).getD []) ++ '\n' :: cfg.git_attributes_contents)
  replayGo cfg fs true [] commits

/-- The tree paths of each replayed commit, when the replay succeeded. -/
def replayTreePaths (r : Except ReplayError (List ReplayedCommit)) :
    Option (List (List (List Char))) :=
  r.toOption.map (fun cs => cs.map (fun c => c.tree.map (fun kv => kv.1)))

/-- The annotation object of an annotated tag (GitPython `TagObject`):
`tag` is the name stored in the object, the rest is the tagger identity,
message and timestamp. -/
structure TagAnnotation where
  tag : List Char
  taggerName : List Char
  taggerEmail : List Char
  message : List Char
  tagged_date : Nat
  tagger_tz_offset : Int
deriving DecidableEq

/-- A tag reference of the source repository: reference name, target commit
hash, and the annotation when the tag is annotated. -/
structure TagRef where
  name : List Char
  commitHexsha : List Char
  annotation : Option TagAnnotation
deriving DecidableEq

/-- A `git tag` invocation performed on the target repository: lightweight
(`git tag <name> <target>`) or annotated (`git tag -a <name> -m <message>
<target>` with the listed identity/date environment overrides — the code
exports the tagger as `GIT_AUTHOR_NAME`/`GIT_AUTHOR_EMAIL` and both date
variables). -/
inductive TagAction where
  | lightweight (name target : List Char)
  | annotated (name message target : List Char)
      (envAuthorName envAuthorEmail envAuthorDate envCommitterDate : List Char)
deriving DecidableEq

/-- Per-tag body of `replayCommitTags`: unmapped targets are skipped with a
warning; a tag without annotation is recreated lightweight; an annotated tag
with a non-empty message is recreated annotated with the tagger identity
resolved through the authors mapping and the original timestamp/timezone,
while an annotated tag whose message is empty falls into the plain
`git tag` call (`if tag.message:` is false), producing a lightweight tag. -/
def actionOfTag (commit_mapping : List (List Char × List Char))
    (authors_mapping : List (List Char × Identity)) (tagref : TagRef) : Option TagAction :=
  match alookup commit_mapping tagref.commitHexsha with
  | none => none
  | some target_hexsha =>
    if target_hexsha.isEmpty then none
    else
      match tagref.annotation with
      | none => some (.lightweight tagref.name target_hexsha)
      | some tag =>
        let tagger_key := tag.taggerName ++ chars (" <") ++ tag.taggerEmail ++ chars (">")
        let tagger_name := resolveName authors_mapping tagger_key tag.taggerName
        let tagger_email := resolveEmail authors_mapping tagger_key tag.taggerEmail
        if tag.message.isEmpty then some (.lightweight tag.tag target_hexsha)
        else
          some (.annotated tag.tag tag.message target_hexsha tagger_name tagger_email
            (fmtGitDate tag.tagged_date tag.tagger_tz_offset)
            (fmtGitDate tag.tagged_date tag.tagger_tz_offset))

/-- `migrate2gitlfs.replayCommitTags`: the sequence of `git tag` invocations
performed for the source repository's tags, in order. -/
def replayCommitTags (commit_mapping : List (List Char × List Char))
    (authors_mapping : List (List Char × Identity)) (tags : List TagRef) : List TagAction :=
  tags.filterMap (actionOfTag commit_mapping authors_mapping)

/-- A list has a match under `any` exactly when its filtration by the same
predicate is non-empty (the `len([...]) > 0` idiom of the source). -/
theorem any_eq_decide_filter_pos {α : Type} (l : List α) (p : α → Bool) :
    l.any p = decide (0 < (l.filter p).length) := by
  induction l with
  | nil => simp
  | cons a t ih =>
    by_cases h : p a = true <;> simp [h, ih, List.filter_cons]

/-- C2: `looksBinary` is the ordered short-circuit predicate of the spec:
pattern match first, else the 1 MiB size threshold, else a NUL byte in the
first 1024 bytes, else not filter-managed.  The closed conjuncts check the
spec's three examples: a pattern-matched file is filter-managed regardless
of content, a 2 MiB NUL-free unmatched file is filter-managed, and a small
pure-ASCII unmatched file is not. -/
theorem looksBinary_ordered_short_circuit :
    (∀ (pats : List (List Char)) (name : List Char) (size : Nat) (content : List Nat),
      looksBinary pats name size content =
        (pats.any (fun p => fnmatch name p) || decide (lfsSizeThreshold ≤ size) ||
          decide (1 ≤ (content.take 1024).count 0)))
    ∧ looksBinary [chars ("*.jpg")] (chars ("photo.jpg")) 10 (List.replicate 10 65) = true
    ∧ looksBinary [chars ("*.jpg")] (chars ("big.dat")) (2 * 1024 * 1024)
        (List.replicate 2048 65) = true
    ∧ looksBinary [chars ("*.jpg")] (chars ("note.txt")) 10 (List.replicate 10 65) = false := by
  refine ⟨?_, rfl, rfl, rfl⟩
  intro pats name size content
  rw [any_eq_decide_filter_pos]
  by_cases h1 : 0 < (pats.filter (fun p => fnmatch name p)).length <;>
    by_cases h2 : lfsSizeThreshold ≤ size <;>
    by_cases h3 : 1 ≤ (content.take 1024).count 0 <;>
    simp [looksBinary, h1, h2, h3]

/-- C10: the in-place search/replace writes the replaced string from offset
0 without truncating, so the resulting file is the replaced string followed
by whatever trailing bytes of the original lie beyond its length, and the
file equals exactly the replaced string precisely when the replaced string
is at least as long as the original.  The closed conjunct shows the effect:
replacing the whole of `hello` by the shorter `ha` leaves `hallo` behind. -/
theorem fileInplace_no_truncate :
    (∀ content s r : List Char,
      fileInplaceSearchAndReplace content s r =
        pyReplace content s r ++ content.drop (pyReplace content s r).length)
    ∧ (∀ content s r : List Char,
      fileInplaceSearchAndReplace content s r = pyReplace content s r ↔
        content.length ≤ (pyReplace content s r).length)
    ∧ fileInplaceSearchAndReplace (chars ("hello")) (chars ("hello")) (chars ("ha")) =
        chars ("hallo") := by
  refine ⟨?_, ?_, rfl⟩
  · intro content s r
    simp [fileInplaceSearchAndReplace, fileWrite]
  · intro content s r
    have hbase : fileInplaceSearchAndReplace content s r =
        pyReplace content s r ++ content.drop (pyReplace content s r).length := by
      simp [fileInplaceSearchAndReplace, fileWrite]
    rw [hbase, List.append_right_eq_self, List.drop_eq_nil_iff]

/-- A filtration by the negation of `q` is empty exactly when `q` holds of
every element. -/
theorem filter_not_isEmpty_eq_all {α : Type} (l : List α) (q : α → Bool) :
    (l.filter (fun x => !(q x))).isEmpty = l.all q := by
  induction l with
  | nil => simp
  | cons a t ih =>
    by_cases h : q a = true <;> simp [h, ih, List.filter_cons]

/-- C8: the attribute-text merge returns the base unchanged when every line
of the addition already occurs inside the base (Python's substring test
`line in contents1`), and otherwise appends exactly the absent lines,
sorted, under the separator comment. -/
theorem gitAttributesMergeDumb_spec :
    ∀ contents1 contents2 separator : List Char,
      ((splitOnChar '\n' contents2).all (fun line => isSubstr line contents1) = true →
        gitAttributesMergeDumb contents1 contents2 separator = contents1)
      ∧ ((splitOnChar '\n' contents2).all (fun line => isSubstr line contents1) = false →
        gitAttributesMergeDumb contents1 contents2 separator =
          contents1 ++ '\n' :: separator ++ '\n' ::
            (joinWith '\n'
              (isort lexLe
                ((splitOnChar '\n' contents2).filter
                  (fun line => !(isSubstr line contents1)))) ++ ['\n'])) := by
  intro contents1 contents2 separator
  constructor
  · intro hall
    have hempty :
        ((splitOnChar '\n' contents2).filter
          (fun line => !(isSubstr line contents1))).isEmpty = true := by
      rw [filter_not_isEmpty_eq_all]; exact hall
    simp [gitAttributesMergeDumb, hempty]
  · intro hall
    have hempty :
        ((splitOnChar '\n' contents2).filter
          (fun line => !(isSubstr line contents1))).isEmpty = false := by
      rw [filter_not_isEmpty_eq_all]; exact hall
    simp [gitAttributesMergeDumb, hempty]

/-- Witness for `gitAttributesMergeDumb_spec`: both branches at concrete
inputs — merging `b` into `a\nb` is the identity, merging `c` into `a\nb`
appends it under the separator. -/
theorem gitAttributesMergeDumb_spec_witness :
    gitAttributesMergeDumb (chars ("a\nb")) (chars ("b")) (chars ("# s")) = chars ("a\nb")
    ∧ gitAttributesMergeDumb (chars ("a\nb")) (chars ("c")) (chars ("# s")) =
        chars ("a\nb") ++ '\n' :: chars ("# s") ++ '\n' ::
          (joinWith '\n'
            (isort lexLe
              ((splitOnChar '\n' (chars ("c"))).filter
                (fun line => !(isSubstr line (chars ("a\nb")))))) ++ ['\n']) :=
  ⟨(gitAttributesMergeDumb_spec (chars ("a\nb")) (chars ("b")) (chars ("# s"))).1 (by decide),
   (gitAttributesMergeDumb_spec (chars ("a\nb")) (chars ("c")) (chars ("# s"))).2 (by decide)⟩

/-- A list is a prefix of itself extended by anything. -/
theorem isPrefixOf_append_self (s b : List Char) : s.isPrefixOf (s ++ b) = true := by
  induction s with
  | nil => simp [List.isPrefixOf]
  | cons c t ih => simp [List.isPrefixOf, ih]

/-- A prefix of the haystack is a substring of it. -/
theorem isSubstr_of_isPrefixOf (n h : List Char) (hp : n.isPrefixOf h = true) :
    isSubstr n h = true := by
  cases h with
  | nil => simpa [isSubstr] using hp
  | cons c t => simp [isSubstr, hp]

/-- Substring occurrence survives prepending to the haystack. -/
theorem isSubstr_append_left (n a h : List Char) (hs : isSubstr n h = true) :
    isSubstr n (a ++ h) = true := by
  induction a with
  | nil => simpa using hs
  | cons c t ih => simp [isSubstr, ih]

/-- A list occurs as a substring of any sandwich around it. -/
theorem isSubstr_sandwich (n a b : List Char) : isSubstr n (a ++ (n ++ b)) = true :=
  isSubstr_append_left n a (n ++ b) (isSubstr_of_isPrefixOf n (n ++ b) (isPrefixOf_append_self n b))

/-- The `.gitattributes` warning never coincides with a credential warning:
their first characters differ. -/
theorem gaWarning_ne_sensitive (name : List Char) : gaWarning ≠ sensitiveWarning name := by
  intro h
  have h1 : (sensitiveWarning name).head? = some '.' := by rw [← h]; rfl
  have h2 : (sensitiveWarning name).head? = some 'F' := rfl
  rw [h1] at h2
  simp at h2

/-- The `.gitattributes` warning never coincides with a `%` warning:
their first characters differ. -/
theorem gaWarning_ne_percent (name : List Char) : gaWarning ≠ percentWarning name := by
  intro h
  have h1 : (percentWarning name).head? = some '.' := by rw [← h]; rfl
  have h2 : (percentWarning name).head? = some 'A' := rfl
  rw [h1] at h2
  simp at h2

/-- C9 counterexample: a `.gitattributes` file inside a subdirectory is not
flagged at all — the scanner compares the whole path against the literal
`.gitattributes`, so only the root-level file is caught, contradicting the
claim that occurrences anywhere in the tree are flagged. -/
theorem nested_gitattributes_not_flagged :
    detectSensitiveFiles (chars ("dir/.gitattributes")) = [] := rfl

/-- C9 amended: the scanner flags exactly the path equal to
`.gitattributes` (root level only, not inside subdirectories), every path
ending in one of the credential-like extensions, and every path containing
a literal `%`, whose warning text surfaces the three characters starting at
the first `%`. -/
theorem detectSensitiveFiles_amended :
    ∀ name : List Char,
      (gaWarning ∈ detectSensitiveFiles name ↔ name = chars (".gitattributes"))
      ∧ (∀ e, e ∈ sensitiveExtensions → e.isSuffixOf name = true →
          sensitiveWarning name ∈ detectSensitiveFiles name)
      ∧ (name.any (fun c => c = '%') = true →
          percentWarning name ∈ detectSensitiveFiles name ∧
            isSubstr (percentSnippet name) (percentWarning name) = true) := by
  intro name
  refine ⟨⟨?_, ?_⟩, ?_, ?_⟩
  · intro hmem
    by_contra hne
    simp only [detectSensitiveFiles, hne, if_false, List.nil_append,
      List.mem_append, List.mem_map] at hmem
    rcases hmem with ⟨_, _, heq⟩ | hmem
    · exact gaWarning_ne_sensitive name heq.symm
    · rcases Decidable.em (name.any (fun c => c = '%') = true) with hp | hp
      · rw [if_pos hp] at hmem
        simp only [List.mem_singleton] at hmem
        exact gaWarning_ne_percent name hmem
      · rw [if_neg hp] at hmem
        simp at hmem
  · intro heq
    simp [detectSensitiveFiles, heq]
  · intro e hmem hsuf
    have hfil : e ∈ sensitiveExtensions.filter (fun x => x.isSuffixOf name) :=
      List.mem_filter.mpr ⟨hmem, hsuf⟩
    have : sensitiveWarning name ∈
        (sensitiveExtensions.filter (fun x => x.isSuffixOf name)).map
          (fun _ => sensitiveWarning name) :=
      List.mem_map.mpr ⟨e, hfil, rfl⟩
    simp only [detectSensitiveFiles, List.mem_append]
    exact Or.inl (Or.inr this)
  · intro hp
    constructor
    · simp [detectSensitiveFiles, hp]
    · show isSubstr (percentSnippet name)
        (chars ("At least a file contains % symbol: ") ++ percentSnippet name ++
          chars (" (see history_rename_files config if you would like to rename them)")) = true
      rw [List.append_assoc]
      exact isSubstr_sandwich _ _ _

/-- Witness for `detectSensitiveFiles_amended`: the root `.gitattributes`,
a `.pem` key, and a `%`-encoded name, all at concrete inputs. -/
theorem detectSensitiveFiles_amended_witness :
    (gaWarning ∈ detectSensitiveFiles (chars (".gitattributes")))
    ∧ sensitiveWarning (chars ("a.pem")) ∈ detectSensitiveFiles (chars ("a.pem"))
    ∧ (percentWarning (chars ("a%23b.txt")) ∈ detectSensitiveFiles (chars ("a%23b.txt")) ∧
        isSubstr (percentSnippet (chars ("a%23b.txt")))
          (percentWarning (chars ("a%23b.txt"))) = true) :=
  ⟨(detectSensitiveFiles_amended (chars (".gitattributes"))).1.mpr rfl,
   (detectSensitiveFiles_amended (chars ("a.pem"))).2.1 (chars (".pem")) (by decide) (by decide),
   (detectSensitiveFiles_amended (chars ("a%23b.txt"))).2.2 (by decide)⟩

/-- `set.add` preserves membership. -/
theorem mem_setInsert (l : List (List Char)) (x p : List Char) (h : p ∈ l) :
    p ∈ setInsert l x := by
  unfold setInsert
  split
  · exact h
  · exact List.mem_append_left _ h

/-- The first-commit blob step never removes a path from `lfs_files`. -/
theorem analyzeBlobStep_lfs_mem (pats : List (List Char)) (s : AnalyzerState)
    (b : AnalyzerBlob) (p : List Char) (h : p ∈ s.lfs_files) :
    p ∈ (analyzeBlobStep pats s b).lfs_files := by
  unfold analyzeBlobStep
  split
  · exact mem_setInsert _ _ _ h
  · exact h

/-- The subsequent-commit diff step never removes a path from `lfs_files`. -/
theorem analyzeDiffStep_lfs_mem (pats : List (List Char)) (s : AnalyzerState)
    (e : AnalyzerDiffEntry) (p : List Char) (h : p ∈ s.lfs_files) :
    p ∈ (analyzeDiffStep pats s e).lfs_files := by
  unfold analyzeDiffStep
  split
  · split
    · exact mem_setInsert _ _ _ h
    · exact h
  · exact h

/-- Folding a step that preserves `lfs_files` membership preserves it. -/
theorem foldl_lfs_mem {β : Type} (f : AnalyzerState → β → AnalyzerState)
    (hf : ∀ s b p, p ∈ s.lfs_files → p ∈ (f s b).lfs_files) :
    ∀ (l : List β) (s : AnalyzerState) (p : List Char),
      p ∈ s.lfs_files → p ∈ (l.foldl f s).lfs_files := by
  intro l
  induction l with
  | nil => intro s p h; exact h
  | cons b t ih => intro s p h; exact ih (f s b) p (hf s b p h)

/-- One commit of the analyzer loop never removes a path from `lfs_files`. -/
theorem analyzeCommitStep_lfs_mem (pats : List (List Char)) (isFirst : Bool)
    (c : AnalyzerCommit) (s : AnalyzerState) (p : List Char) (h : p ∈ s.lfs_files) :
    p ∈ (analyzeCommitStep pats isFirst c s).lfs_files := by
  unfold analyzeCommitStep
  split
  · exact foldl_lfs_mem _ (analyzeBlobStep_lfs_mem pats) _ _ _ h
  · exact foldl_lfs_mem _ (analyzeDiffStep_lfs_mem pats) _ _ _ h

/-- The analyzer loop never removes a path from `lfs_files`. -/
theorem analyzeGo_lfs_mem (pats : List (List Char)) (cs : List AnalyzerCommit) :
    ∀ (s : AnalyzerState) (isFirst : Bool) (p : List Char),
      p ∈ s.lfs_files → p ∈ (analyzeGo pats s isFirst cs).lfs_files := by
  induction cs with
  | nil => intro s isFirst p h; exact h
  | cons c t ih =>
    intro s isFirst p h
    exact ih _ false p (analyzeCommitStep_lfs_mem pats isFirst c s p h)

/-- C4: the analyzer's classification is monotonic per path — once a path is
in `lfs_files` after some prefix of the commit sequence, it is still there
after any extension of that prefix (even if later revisions of the path
would classify as textual on their own, since membership is tested before
`looksBinary` in the diff step); and after the first commit only
`Added`/`Modified` diff entries are (re)classified — any other change type
leaves the analyzer state entirely unchanged. -/
theorem analyzer_lfs_classification_monotone :
    (∀ (pats : List (List Char)) (cs1 cs2 : List AnalyzerCommit) (p : List Char),
      p ∈ (analyzeGitRepository pats cs1).lfs_files →
        p ∈ (analyzeGitRepository pats (cs1 ++ cs2)).lfs_files)
    ∧ (∀ (pats : List (List Char)) (s : AnalyzerState) (e : AnalyzerDiffEntry),
      ¬(e.change_type = chars ("A") ∨ e.change_type = chars ("M")) →
        analyzeDiffStep pats s e = s) := by
  constructor
  · intro pats cs1 cs2 p
    unfold analyzeGitRepository
    induction cs1 generalizing p with
    | nil =>
      intro h
      exact analyzeGo_lfs_mem pats cs2 _ _ p h
    | cons c t ih =>
      intro h
      have ht : ∀ (s : AnalyzerState) (isFirst : Bool) (q : List Char),
          q ∈ (analyzeGo pats s isFirst t).lfs_files →
            q ∈ (analyzeGo pats s isFirst (t ++ cs2)).lfs_files := by
        clear h ih
        induction t generalizing cs2 with
        | nil => intro s isFirst q h; exact analyzeGo_lfs_mem pats cs2 _ _ q h
        | cons d u ihu => intro s isFirst q h; exact ihu cs2 _ false q h
      exact ht _ false p h
  · intro pats s e hne
    unfold analyzeDiffStep
    rw [if_neg hne]

/-- Witness for `analyzer_lfs_classification_monotone`: a path classified in
the first commit (it contains a NUL byte) stays classified after a second
commit whose `Modified` revision of it is pure ASCII; and a `Deleted` diff
entry leaves the analyzer state unchanged. -/
theorem analyzer_lfs_classification_monotone_witness :
    chars ("f.dat") ∈
      (analyzeGitRepository []
        ([{ author := ⟨chars ("A"), chars ("a@x")⟩, committer := ⟨chars ("A"), chars ("a@x")⟩
            tree := [⟨chars ("f.dat"), 4, [0, 1, 2, 3]⟩], diff := [] }] ++
         [{ author := ⟨chars ("A"), chars ("a@x")⟩, committer := ⟨chars ("A"), chars ("a@x")⟩
            tree := [], diff := [⟨chars ("M"), chars ("f.dat"), 3, [65, 66, 67]⟩] }])).lfs_files
    ∧ analyzeDiffStep [] analyzeInit ⟨chars ("D"), chars ("g.txt"), 0, []⟩ = analyzeInit :=
  ⟨analyzer_lfs_classification_monotone.1 []
      [{ author := ⟨chars ("A"), chars ("a@x")⟩, committer := ⟨chars ("A"), chars ("a@x")⟩
         tree := [⟨chars ("f.dat"), 4, [0, 1, 2, 3]⟩], diff := [] }]
      [{ author := ⟨chars ("A"), chars ("a@x")⟩, committer := ⟨chars ("A"), chars ("a@x")⟩
         tree := [], diff := [⟨chars ("M"), chars ("f.dat"), 3, [65, 66, 67]⟩] }]
      (chars ("f.dat")) (by decide),
   analyzer_lfs_classification_monotone.2 [] analyzeInit
      ⟨chars ("D"), chars ("g.txt"), 0, []⟩ (by decide)⟩

/-- The identity/date/message metadata of a created commit (tree
excluded). -/
def commitMeta (rc : ReplayedCommit) :
    List Char × List Char × List Char × List Char × List Char × List Char × List Char :=
  (rc.authorName, rc.authorEmail, rc.committerName, rc.committerEmail,
    rc.authorDate, rc.committerDate, rc.message)

/-- The metadata the source computes for one commit before creating it:
identities resolved through the authors mapping, dates formatted with their
original timezone offsets, original message. -/
def expectedMeta (cfg : ReplayConfig) (c : ReplayCommit) :
    List Char × List Char × List Char × List Char × List Char × List Char × List Char :=
  (resolveName cfg.authors_mapping (identityKey c.author) c.author.name,
    resolveEmail cfg.authors_mapping (identityKey c.author) c.author.email,
    resolveName cfg.authors_mapping (identityKey c.committer) c.committer.name,
    resolveEmail cfg.authors_mapping (identityKey c.committer) c.committer.email,
    fmtGitDate c.authored_date c.author_tz_offset,
    fmtGitDate c.committed_date c.committer_tz_offset,
    c.message)

/-- On success, the commit loop emits one commit per input commit, with
exactly the resolved metadata, after whatever was already accumulated. -/
theorem replayGo_meta (cfg : ReplayConfig) :
    ∀ (cs : List ReplayCommit) (fs : FS) (isFirst : Bool)
      (acc out : List ReplayedCommit),
      replayGo cfg fs isFirst acc cs = .ok out →
      out.map commitMeta = acc.reverse.map commitMeta ++ cs.map (expectedMeta cfg) := by
  intro cs
  induction cs with
  | nil =>
    intro fs isFirst acc out h
    simp only [replayGo] at h
    cases h
    simp
  | cons c t ih =>
    intro fs isFirst acc out h
    simp only [replayGo] at h
    cases hres : replayStepFS cfg fs isFirst c with
    | error err => rw [hres] at h; cases h
    | ok fs2 =>
      rw [hres] at h
      have hstep := ih fs2 false (mkReplayedCommit cfg c fs2 :: acc) out h
      have hmeta : commitMeta (mkReplayedCommit cfg c fs2) = expectedMeta cfg c := rfl
      simp [hstep, hmeta]

/-- C3: identity substitution during replay is total.  Every successful
replay creates, per source commit and in order, a commit whose
author/committer name and email are resolved through the authors mapping;
and the resolution takes exactly the mapped value when the key
`"name <email>"` is present, and the original identity when it is absent. -/
theorem replay_identity_substitution_total :
    (∀ (cfg : ReplayConfig) (fs0 : FS) (commits : List ReplayCommit)
      (out : List ReplayedCommit),
      replayCommits cfg fs0 commits = .ok out →
      out.map commitMeta = commits.map (expectedMeta cfg))
    ∧ (∀ (m : List (List Char × Identity)) (who v : Identity),
      alookup m (identityKey who) = some v →
        resolveName m (identityKey who) who.name = v.name ∧
          resolveEmail m (identityKey who) who.email = v.email)
    ∧ (∀ (m : List (List Char × Identity)) (who : Identity),
      alookup m (identityKey who) = none →
        resolveName m (identityKey who) who.name = who.name ∧
          resolveEmail m (identityKey who) who.email = who.email) := by
  refine ⟨?_, ?_, ?_⟩
  · intro cfg fs0 commits out h
    have := replayGo_meta cfg commits _ true [] out h
    simpa using this
  · intro m who v h
    constructor <;> simp [resolveName, resolveEmail, h]
  · intro m who h
    constructor <;> simp [resolveName, resolveEmail, h]

/-- Witness inputs for the identity-substitution theorem: a mapped author
and an unmapped committer. -/
def identSubCfg : ReplayConfig :=
  { cloned_repo_path := chars ("/cloned"), target_repo_path := chars ("/target")
    cwd := chars ("/work"), git_attributes_contents := chars ("*.bin filter=lfs")
    authors_mapping := [(chars ("Al <a@x>"), ⟨chars ("Bob"), chars ("b@y")⟩)]
    files_to_rename := [], files_to_delete := [], files_to_replace := [] }

/-- A one-commit history for the identity-substitution witness. -/
def identSubCommit : ReplayCommit :=
  { hexsha := chars ("c3"), author := ⟨chars ("Al"), chars ("a@x")⟩
    committer := ⟨chars ("Cy"), chars ("c@z")⟩
    authored_date := 5, committed_date := 6
    author_tz_offset := 0, committer_tz_offset := -60
    message := chars ("m"), tree := [(chars ("f"), chars ("1"))]
    diff := [] }

/-- Witness for `replay_identity_substitution_total`: a concrete replay in
which the author key is mapped (to Bob) and the committer key is absent
(Cy passes through), plus the two lookup cases at concrete mappings. -/
theorem replay_identity_substitution_total_witness :
    ((replayCommits identSubCfg [] [identSubCommit]).toOption.getD []).map commitMeta =
      [identSubCommit].map (expectedMeta identSubCfg)
    ∧ (resolveName identSubCfg.authors_mapping
        (identityKey ⟨chars ("Al"), chars ("a@x")⟩) (chars ("Al")) = chars ("Bob") ∧
       resolveEmail identSubCfg.authors_mapping
        (identityKey ⟨chars ("Al"), chars ("a@x")⟩) (chars ("a@x")) = chars ("b@y"))
    ∧ (resolveName identSubCfg.authors_mapping
        (identityKey ⟨chars ("Cy"), chars ("c@z")⟩) (chars ("Cy")) = chars ("Cy") ∧
       resolveEmail identSubCfg.authors_mapping
        (identityKey ⟨chars ("Cy"), chars ("c@z")⟩) (chars ("c@z")) = chars ("c@z")) :=
  ⟨replay_identity_substitution_total.1 identSubCfg [] [identSubCommit]
      ((replayCommits identSubCfg [] [identSubCommit]).toOption.getD []) rfl,
   replay_identity_substitution_total.2.1 identSubCfg.authors_mapping
      ⟨chars ("Al"), chars ("a@x")⟩ ⟨chars ("Bob"), chars ("b@y")⟩ (by decide),
   replay_identity_substitution_total.2.2 identSubCfg.authors_mapping
      ⟨chars ("Cy"), chars ("c@z")⟩ (by decide)⟩

/-- The five change types the replay engine models. -/
def modeledChangeTypes : List (List Char) :=
  [chars ("A"), chars ("M"), chars ("T"), chars ("D"), chars ("R")]

/-- A configuration with empty tables, for concrete diff-step evaluation. -/
def emptyCfg : ReplayConfig :=
  { cloned_repo_path := chars ("/cloned"), target_repo_path := chars ("/target")
    cwd := chars ("/work"), git_attributes_contents := chars ("ga")
    authors_mapping := [], files_to_rename := []
    files_to_delete := [], files_to_replace := [] }

/-- C6 counterexample: a diff entry with the unmodeled change type `C`
whose `a_path` is `.gitattributes` raises nothing — the engine skips every
`.gitattributes` entry (with a warning) before looking at the change type,
contradicting the claim that every unmodeled change type is fatal. -/
theorem unmodeled_change_gitattributes_skip :
    applyDiffEntry emptyCfg [] ⟨chars ("C"), chars (".gitattributes"), chars ("x")⟩ =
      .ok [] := rfl

/-- C6 amended: for every diff entry whose `a_path` is not `.gitattributes`
(those are always skipped with a warning), an unmodeled change type raises
the fatal `Exception` with no recovery, and none of the five modeled change
types can raise that error (they may raise unrelated I/O or attribute
errors, but never the unmodeled-change-type one). -/
theorem unmodeled_change_type_fatal_amended :
    ∀ (cfg : ReplayConfig) (fs : FS) (e : ReplayDiffEntry),
      e.a_path ≠ chars (".gitattributes") →
      (e.change_type ∉ modeledChangeTypes →
        applyDiffEntry cfg fs e = .error (.unmodeledChangeType e.change_type))
      ∧ (e.change_type ∈ modeledChangeTypes →
        ∀ ct : List Char,
          applyDiffEntry cfg fs e ≠ .error (.unmodeledChangeType ct)) := by
  intro cfg fs e ha
  constructor
  · intro hnot
    simp only [modeledChangeTypes, List.mem_cons, List.mem_singleton, not_or] at hnot
    obtain ⟨h1, h2, h3, h4, h5⟩ := hnot
    simp [applyDiffEntry, ha, h1, h2, h3, h4, h5]
  · intro hmem ct
    simp only [modeledChangeTypes, List.mem_cons, List.mem_singleton] at hmem
    rcases hmem with h | h | h | h | h
    all_goals (simp +decide [applyDiffEntry, ha, h]; (repeat' split) <;> simp_all)

/-- Witness for `unmodeled_change_type_fatal_amended`: a copy entry (`C`)
on an ordinary path raises the fatal error, while a `D` entry on a path in
the delete set does not raise the unmodeled-change-type error. -/
theorem unmodeled_change_type_fatal_amended_witness :
    applyDiffEntry emptyCfg [] ⟨chars ("C"), chars ("f.txt"), chars ("g.txt")⟩ =
      .error (.unmodeledChangeType (chars ("C")))
    ∧ ∀ ct : List Char,
      applyDiffEntry emptyCfg [] ⟨chars ("D"), chars ("f.txt"), chars ("")⟩ ≠
        .error (.unmodeledChangeType ct) :=
  ⟨(unmodeled_change_type_fatal_amended emptyCfg []
      ⟨chars ("C"), chars ("f.txt"), chars ("g.txt")⟩ (by decide)).1 (by decide),
   fun ct =>
    (unmodeled_change_type_fatal_amended emptyCfg []
      ⟨chars ("D"), chars ("f.txt"), chars ("")⟩ (by decide)).2 (by decide) ct⟩

/-- C5 counterexample: an annotated tag whose message is empty, with a
mapped target commit, is replayed as a LIGHTWEIGHT tag (`if tag.message:`
is false, so the plain `git tag` call runs), contradicting the claim that
every annotated tag with a mapped target is replayed as an annotated tag
carrying the original message and tagger metadata. -/
theorem annotated_empty_message_tag_lightweight :
    replayCommitTags [(chars ("h1"), chars ("n1"))] []
      [{ name := chars ("v1"), commitHexsha := chars ("h1")
         annotation := some { tag := chars ("v1"), taggerName := chars ("Alice")
                              taggerEmail := chars ("a@x"), message := chars ("")
                              tagged_date := 100, tagger_tz_offset := 0 } }] =
      [TagAction.lightweight (chars ("v1")) (chars ("n1"))] := rfl

/-- C5 amended: an annotated tag whose target commit is mapped is replayed
as an annotated tag — carrying the original message, the tagger identity
resolved through the authors mapping (the original identity when the key is
absent), and the original timestamp/timezone-offset string in both date
environment variables — PROVIDED its message is non-empty; an annotated tag
with an empty message is replayed as a lightweight tag at the mapped
commit. -/
theorem replay_annotated_tag_amended :
    ∀ (mapping : List (List Char × List Char)) (authors : List (List Char × Identity))
      (tagref : TagRef) (t : TagAnnotation) (h : List Char),
      tagref.annotation = some t →
      alookup mapping tagref.commitHexsha = some h →
      h ≠ [] →
      (t.message ≠ [] →
        actionOfTag mapping authors tagref =
          some (.annotated t.tag t.message h
            (resolveName authors
              (t.taggerName ++ chars (" <") ++ t.taggerEmail ++ chars (">")) t.taggerName)
            (resolveEmail authors
              (t.taggerName ++ chars (" <") ++ t.taggerEmail ++ chars (">")) t.taggerEmail)
            (fmtGitDate t.tagged_date t.tagger_tz_offset)
            (fmtGitDate t.tagged_date t.tagger_tz_offset)))
      ∧ (t.message = [] →
        actionOfTag mapping authors tagref = some (.lightweight t.tag h)) := by
  intro mapping authors tagref t h hann hlook hne
  have hempty : h.isEmpty = false := by
    cases h with
    | nil => exact absurd rfl hne
    | cons a l => rfl
  constructor
  · intro hmsg
    have hmsgempty : t.message.isEmpty = false := by
      cases hm : t.message with
      | nil => exact absurd hm hmsg
      | cons a l => rfl
    simp [actionOfTag, hann, hlook, hempty, hmsgempty]
  · intro hmsg
    have hmsgempty : t.message.isEmpty = true := by rw [hmsg]; rfl
    simp [actionOfTag, hann, hlook, hempty, hmsgempty]

/-- Witness for `replay_annotated_tag_amended`: a concrete annotated tag
with a non-empty message and an unmapped tagger identity replays annotated
with identity and timestamp preserved; the same tag with an empty message
replays lightweight. -/
theorem replay_annotated_tag_amended_witness :
    actionOfTag [(chars ("h1"), chars ("n1"))] []
      { name := chars ("v1"), commitHexsha := chars ("h1")
        annotation := some { tag := chars ("v1"), taggerName := chars ("Alice")
                             taggerEmail := chars ("a@x"), message := chars ("rel")
                             tagged_date := 100, tagger_tz_offset := -3600 } } =
      some (.annotated (chars ("v1")) (chars ("rel")) (chars ("n1"))
        (resolveName [] (chars ("Alice")  ++ chars (" <") ++ chars ("a@x") ++ chars (">"))
          (chars ("Alice")))
        (resolveEmail [] (chars ("Alice") ++ chars (" <") ++ chars ("a@x") ++ chars (">"))
          (chars ("a@x")))
        (fmtGitDate 100 (-3600)) (fmtGitDate 100 (-3600)))
    ∧ actionOfTag [(chars ("h1"), chars ("n1"))] []
      { name := chars ("v1"), commitHexsha := chars ("h1")
        annotation := some { tag := chars ("v1"), taggerName := chars ("Alice")
                             taggerEmail := chars ("a@x"), message := chars ("")
                             tagged_date := 100, tagger_tz_offset := 0 } } =
      some (.lightweight (chars ("v1")) (chars ("n1"))) :=
  ⟨(replay_annotated_tag_amended [(chars ("h1"), chars ("n1"))] []
      { name := chars ("v1"), commitHexsha := chars ("h1")
        annotation := some { tag := chars ("v1"), taggerName := chars ("Alice")
                             taggerEmail := chars ("a@x"), message := chars ("rel")
                             tagged_date := 100, tagger_tz_offset := -3600 } }
      { tag := chars ("v1"), taggerName := chars ("Alice")
        taggerEmail := chars ("a@x"), message := chars ("rel")
        tagged_date := 100, tagger_tz_offset := -3600 }
      (chars ("n1")) rfl rfl (by decide)).1 (by decide),
   (replay_annotated_tag_amended [(chars ("h1"), chars ("n1"))] []
      { name := chars ("v1"), commitHexsha := chars ("h1")
        annotation := some { tag := chars ("v1"), taggerName := chars ("Alice")
                             taggerEmail := chars ("a@x"), message := chars ("")
                             tagged_date := 100, tagger_tz_offset := 0 } }
      { tag := chars ("v1"), taggerName := chars ("Alice")
        taggerEmail := chars ("a@x"), message := chars ("")
        tagged_date := 100, tagger_tz_offset := 0 }
      (chars ("n1")) rfl rfl (by decide)).2 rfl⟩

/-- A configuration whose delete set contains `secrets.json`, run with the
process working directory outside the target repository (the normal case:
the tool never changes directory and the target is freshly created next to
the origin). -/
def deleteSetCfg : ReplayConfig :=
  { cloned_repo_path := chars ("/cloned"), target_repo_path := chars ("/target")
    cwd := chars ("/work"), git_attributes_contents := chars ("*.bin filter=lfs")
    authors_mapping := [], files_to_rename := []
    files_to_delete := [chars ("secrets.json")], files_to_replace := [] }

/-- A single source commit whose tree contains the to-be-deleted file. -/
def deleteSetCommit : ReplayCommit :=
  { hexsha := chars ("c1"), author := ⟨chars ("Al"), chars ("a@x")⟩
    committer := ⟨chars ("Al"), chars ("a@x")⟩
    authored_date := 100, committed_date := 100
    author_tz_offset := 0, committer_tz_offset := 0
    message := chars ("add secrets"), tree := [(chars ("secrets.json"), chars ("xyz"))]
    diff := [] }

/-- C1: the delete-set invariant FAILS at the root commit.  The first-commit
delete loop runs `os.path.isfile(file)` / `os.unlink(file)` on the
configured relative path without joining it to the target repository, i.e.
relative to the process working directory (contrast the diff branch, which
joins against `target_repo_path`).  With the working directory outside the
target — the normal situation — the check misses, nothing is deleted, and
the replayed root commit's tree still contains `secrets.json`, a member of
the delete set. -/
theorem replayRoot_deleteSet_cwd_bug :
    chars ("secrets.json") ∈ deleteSetCfg.files_to_delete
    ∧ replayTreePaths (replayCommits deleteSetCfg [] [deleteSetCommit]) =
        some [[chars (".gitattributes"), chars ("secrets.json")]] :=
  ⟨by decide, rfl⟩

/-- A configuration whose rename table should only rewrite `tmp` inside
file names, with the target repository located at `/tmp/repo`. -/
def renameWalkCfg : ReplayConfig :=
  { cloned_repo_path := chars ("/cloned"), target_repo_path := chars ("/tmp/repo")
    cwd := chars ("/work"), git_attributes_contents := chars ("ga")
    authors_mapping := [], files_to_rename := [(chars ("tmp"), chars ("XX"))]
    files_to_delete := [], files_to_replace := [] }

/-- A single source commit with one file whose relative path contains no
occurrence of any rename-rule search string. -/
def renameWalkCommit : ReplayCommit :=
  { hexsha := chars ("c7"), author := ⟨chars ("Al"), chars ("a@x")⟩
    committer := ⟨chars ("Al"), chars ("a@x")⟩
    authored_date := 5, committed_date := 6
    author_tz_offset := 0, committer_tz_offset := -60
    message := chars ("m"), tree := [(chars ("a.txt"), chars ("hi"))]
    diff := [] }

/-- C7: the root-commit rename walk does NOT operate on the full relative
path.  It feeds `multireplace` the ABSOLUTE path `os.path.join(root, name)`
produced by `os.walk(target_repo_path)`, so a rule whose search string
occurs in the target repository's own location (`tmp` in `/tmp/repo`)
rewrites the prefix and `os.renames` moves every file out of the repository:
the replayed root commit's tree is empty, even though `multireplace` applied
to the file's relative path (and to the `.gitattributes` name) changes
nothing.  The per-diff resolution, by contrast, does apply the table to the
relative `a_path`/`b_path` only. -/
theorem rootWalk_absolute_path_rename_bug :
    multireplace (chars ("a.txt")) renameWalkCfg.files_to_rename = chars ("a.txt")
    ∧ multireplace (chars (".gitattributes")) renameWalkCfg.files_to_rename =
        chars (".gitattributes")
    ∧ replayTreePaths (replayCommits renameWalkCfg [] [renameWalkCommit]) = some [[]] :=
  ⟨rfl, rfl, rfl⟩
